import Mathlib

/-
Verification of the retry-with-exponential-backoff controller in
vendor/github.com/weaveworks/common/backoff/backoff.go.

The Go `backoff` struct holds a work function `f`, the channels `quit` and
`done`, a message label `msg`, and the durations `initialBackoff` and
`maxBackoff` (Go `time.Duration`, a signed 64-bit count of nanoseconds,
modelled here as `Int`, with the doubling of the loop wrapped to the int64
range by `wrap64`, since Go defines signed overflow as two's-complement
wraparound).

`Start` runs a loop: call `f`; if it reports done, return; otherwise update
the backoff duration and the `shouldLog` flag, possibly emit a log line, set
`shouldLog = err != nil`, and then wait for the backoff duration in a
`select` that also watches the `quit` channel.

The loop is embedded as a function over a finite script of iteration inputs:
each element supplies the pair returned by `f` for that call and whether the
`quit` channel fires during that iteration's wait (resolving the `select`
nondeterminism).  The observable behaviour is a trace of actions: work-
function calls, emitted log lines (warn or info), completed waits with their
duration, the observation of `quit`, and the deferred `close(done)`.
-/

namespace BackoffProg

/-- The `backoff` struct's plain data fields: `msg`, `initialBackoff`,
`maxBackoff` (durations as `Int` nanosecond counts). The function and the
channels are modelled by the run script instead of being stored. -/
structure Backoff where
  msg : String
  initialBackoff : Int
  maxBackoff : Int
deriving Repr, DecidableEq

/-- One second of `time.Duration`, in nanoseconds. -/
def second : Int := 1000000000

/-- `New` (lines 29-38): default `initialBackoff` is 10s, default
`maxBackoff` is 60s. -/
def new (msg : String) : Backoff :=
  { msg := msg, initialBackoff := 10 * second, maxBackoff := 60 * second }

/-- The pair returned by one call of the work function `f`:
`done : bool` and `err : error` (an `error` is nil or carries a message). -/
structure WorkResult where
  done : Bool
  err : Option String
deriving Repr, DecidableEq

/-- Input script entry for one loop iteration: what `f` returns on this
call, and whether the `quit` channel fires during this iteration's
`select` wait (if the iteration gets that far). -/
structure IterInput where
  result : WorkResult
  quit : Bool
deriving Repr, DecidableEq

/-- Observable actions of a run of `Start`. -/
inductive Action where
  | call
  | warn (msg : String) (backoff : Int) (err : String)
  | info (msg : String)
  | wait (d : Int)
  | quitObserved
  | closeDone
deriving Repr, DecidableEq

/-- How a modelled run of `Start` ended: the work function reported
completion, the quit channel was observed, or the input script ran out
while the loop was still going. -/
inductive Outcome where
  | completed
  | quitExit
  | exhausted
deriving Repr, DecidableEq

/-- Two's-complement wraparound of a 64-bit signed integer: Go's defined
behaviour of int64 arithmetic (`time.Duration` is an int64).  Maps any
integer into the interval from -2^63 to 2^63 - 1. -/
def wrap64 (x : Int) : Int := (x + 2 ^ 63) % 2 ^ 64 - 2 ^ 63

/-- Lines 66-75 of `Start`: the backoff/shouldLog update on an iteration
that did not complete.  On an error the backoff is doubled (`backoff *= 2`
on int64, hence wrapped by `wrap64`) and, if it now
exceeds `maxBackoff`, clamped with `shouldLog` cleared; otherwise
`shouldLog` is set.  On a nil error the backoff is reset to
`initialBackoff` and `shouldLog` is left alone.  Returns the new backoff
and the `shouldLog` value in force at the logging step. -/
def updateDelay (b : Backoff) (backoff : Int) (shouldLog : Bool)
    (err : Option String) : Int × Bool :=
  match err with
  | some _ =>
    let backoff2 := wrap64 (backoff * 2)
    if backoff2 > b.maxBackoff then (b.maxBackoff, false) else (backoff2, true)
  | none => (b.initialBackoff, shouldLog)

/-- Lines 77-84 of `Start`: the log lines emitted this iteration, given the
updated backoff and the `shouldLog` flag.  `log.Warnf` receives the label,
the (updated) backoff and the error; `log.Infof` receives the label. -/
def logActs (b : Backoff) (backoff : Int) (shouldLog : Bool)
    (err : Option String) : List Action :=
  if shouldLog then
    match err with
    | some e => [Action.warn b.msg backoff e]
    | none => [Action.info b.msg]
  else []

/-- Result of one non-completing loop iteration: the backoff to wait for,
the `shouldLog` flag carried to the next iteration, and the log lines
emitted. -/
structure StepOut where
  delay : Int
  flag : Bool
  acts : List Action
deriving Repr, DecidableEq

/-- Lines 66-88 of `Start` for an iteration with `done = false`: update the
delay, log if `shouldLog`, then set `shouldLog = err != nil` for the next
iteration. -/
def loopIter (b : Backoff) (backoff : Int) (shouldLog : Bool)
    (err : Option String) : StepOut :=
  let p := updateDelay b backoff shouldLog err
  { delay := p.1, flag := err.isSome, acts := logActs b p.1 p.2 err }

/-- The loop of `Start` (lines 60-95), over a finite input script.  Each
iteration calls `f`; `done = true` returns at once.  Otherwise the
iteration's updates and log lines happen and the `select` either observes
`quit` (ending the run) or completes the wait and continues. -/
def runAux (b : Backoff) (backoff : Int) (shouldLog : Bool) :
    List IterInput → List Action × Outcome
  | [] => ([], Outcome.exhausted)
  | inp :: rest =>
    if inp.result.done then ([Action.call], Outcome.completed)
    else
      let st := loopIter b backoff shouldLog inp.result.err
      if inp.quit then
        (Action.call :: st.acts ++ [Action.quitObserved], Outcome.quitExit)
      else
        let r := runAux b st.delay st.flag rest
        (Action.call :: st.acts ++ Action.wait st.delay :: r.1, r.2)

/-- `Start` (lines 55-96): the loop begins with `backoff = initialBackoff`
and `shouldLog = true`; `defer close(b.done)` signals termination once the
loop body has returned (so only on a completed or quit exit, not when the
model merely ran out of script). -/
def start (b : Backoff) (inputs : List IterInput) : List Action × Outcome :=
  let r := runAux b b.initialBackoff true inputs
  (if r.2 = Outcome.exhausted then r.1 else r.1 ++ [Action.closeDone], r.2)

/-- Script entry: `f` returns `(false, err)` with a non-nil error, no quit. -/
def failInput (e : String) : IterInput := ⟨⟨false, some e⟩, false⟩

/-- Script entry: `f` returns `(false, nil)`, no quit. -/
def okInput : IterInput := ⟨⟨false, none⟩, false⟩

/-- Script entry: `f` returns `(true, nil)`. -/
def doneInput : IterInput := ⟨⟨true, none⟩, false⟩

/-- Log lines among a trace's actions. -/
def isNotif : Action → Bool
  | Action.warn _ _ _ => true
  | Action.info _ => true
  | _ => false

/-- The log lines of a trace, in order. -/
def notifs (tr : List Action) : List Action := tr.filter isNotif

/-- The durations of the completed waits of a trace, in order. -/
def waits : List Action → List Int
  | [] => []
  | Action.wait d :: tr => d :: waits tr
  | _ :: tr => waits tr

/-- The number of work-function calls in a trace. -/
def callCount : List Action → Nat
  | [] => 0
  | Action.call :: tr => callCount tr + 1
  | _ :: tr => callCount tr

/-- The delay after one failed iteration (lines 67-72): double on int64
(wrapping), then clamp to `maxBackoff`. -/
def failDelay (b : Backoff) (d : Int) : Int :=
  if wrap64 (d * 2) > b.maxBackoff then b.maxBackoff else wrap64 (d * 2)

/-- The delay after `n` consecutive failed iterations starting from `d`. -/
def failDelayN (b : Backoff) (d : Int) : Nat → Int
  | 0 => d
  | n + 1 => failDelayN b (failDelay b d) n

/-- Cumulative run of consecutive non-completing, non-quit iterations:
final delay, final `shouldLog`, and the trace produced. -/
def procAux (b : Backoff) (backoff : Int) (shouldLog : Bool) :
    List IterInput → StepOut
  | [] => ⟨backoff, shouldLog, []⟩
  | inp :: rest =>
    let st := loopIter b backoff shouldLog inp.result.err
    let r := procAux b st.delay st.flag rest
    ⟨r.delay, r.flag, Action.call :: st.acts ++ Action.wait st.delay :: r.acts⟩

lemma waits_append (xs ys : List Action) :
    waits (xs ++ ys) = waits xs ++ waits ys := by
  induction xs with
  | nil => simp [waits]
  | cons a xs ih => cases a <;> simp [waits, ih]

lemma notifs_append (xs ys : List Action) :
    notifs (xs ++ ys) = notifs xs ++ notifs ys := by
  simp [notifs, List.filter_append]

lemma callCount_append (xs ys : List Action) :
    callCount (xs ++ ys) = callCount xs + callCount ys := by
  induction xs with
  | nil => simp [callCount]
  | cons a xs ih => cases a <;> (simp [callCount, ih]; try omega)

lemma loopIter_some (b : Backoff) (d : Int) (s : Bool) (e : String) :
    loopIter b d s (some e) =
      if wrap64 (d * 2) > b.maxBackoff then ⟨b.maxBackoff, true, []⟩
      else ⟨wrap64 (d * 2), true,
        [Action.warn b.msg (wrap64 (d * 2)) e]⟩ := by
  by_cases h : wrap64 (d * 2) > b.maxBackoff <;>
    simp [loopIter, updateDelay, logActs, h]

lemma loopIter_none (b : Backoff) (d : Int) (s : Bool) :
    loopIter b d s none =
      ⟨b.initialBackoff, false, if s then [Action.info b.msg] else []⟩ := by
  cases s <;> simp [loopIter, updateDelay, logActs]

lemma loopIter_some_delay (b : Backoff) (d : Int) (s : Bool) (e : String) :
    (loopIter b d s (some e)).delay = failDelay b d := by
  by_cases h : wrap64 (d * 2) > b.maxBackoff <;>
    simp [loopIter_some, failDelay, h]

lemma waits_loopIter_acts (b : Backoff) (d : Int) (s : Bool)
    (err : Option String) : waits (loopIter b d s err).acts = [] := by
  cases err with
  | none => rw [loopIter_none]; split <;> simp [waits]
  | some e => rw [loopIter_some]; split <;> simp [waits]

lemma callCount_loopIter_acts (b : Backoff) (d : Int) (s : Bool)
    (err : Option String) : callCount (loopIter b d s err).acts = 0 := by
  cases err with
  | none => rw [loopIter_none]; split <;> simp [callCount]
  | some e => rw [loopIter_some]; split <;> simp [callCount]

lemma runAux_cons_done (b : Backoff) (d : Int) (s : Bool) (inp : IterInput)
    (rest : List IterInput) (h : inp.result.done = true) :
    runAux b d s (inp :: rest) = ([Action.call], Outcome.completed) := by
  simp [runAux, h]

lemma runAux_cons_quit (b : Backoff) (d : Int) (s : Bool) (inp : IterInput)
    (rest : List IterInput) (h1 : inp.result.done = false)
    (h2 : inp.quit = true) :
    runAux b d s (inp :: rest) =
      (Action.call :: (loopIter b d s inp.result.err).acts ++
        [Action.quitObserved], Outcome.quitExit) := by
  simp [runAux, h1, h2]

lemma runAux_cons_cont (b : Backoff) (d : Int) (s : Bool) (inp : IterInput)
    (rest : List IterInput) (h1 : inp.result.done = false)
    (h2 : inp.quit = false) :
    runAux b d s (inp :: rest) =
      (Action.call :: (loopIter b d s inp.result.err).acts ++
        Action.wait (loopIter b d s inp.result.err).delay ::
          (runAux b (loopIter b d s inp.result.err).delay
            (loopIter b d s inp.result.err).flag rest).1,
       (runAux b (loopIter b d s inp.result.err).delay
            (loopIter b d s inp.result.err).flag rest).2) := by
  simp [runAux, h1, h2]

lemma procAux_cons (b : Backoff) (d : Int) (s : Bool) (inp : IterInput)
    (rest : List IterInput) :
    procAux b d s (inp :: rest) =
      ⟨(procAux b (loopIter b d s inp.result.err).delay
          (loopIter b d s inp.result.err).flag rest).delay,
       (procAux b (loopIter b d s inp.result.err).delay
          (loopIter b d s inp.result.err).flag rest).flag,
       Action.call :: (loopIter b d s inp.result.err).acts ++
         Action.wait (loopIter b d s inp.result.err).delay ::
           (procAux b (loopIter b d s inp.result.err).delay
              (loopIter b d s inp.result.err).flag rest).acts⟩ := rfl

lemma runAux_cont_append (b : Backoff) (xs : List IterInput)
    (hx : ∀ i ∈ xs, i.result.done = false ∧ i.quit = false) :
    ∀ (d : Int) (s : Bool) (ys : List IterInput),
    runAux b d s (xs ++ ys) =
      ((procAux b d s xs).acts ++
         (runAux b (procAux b d s xs).delay (procAux b d s xs).flag ys).1,
       (runAux b (procAux b d s xs).delay (procAux b d s xs).flag ys).2) := by
  induction xs with
  | nil => intro d s ys; simp [procAux]
  | cons inp xs ih =>
    intro d s ys
    have h1 : inp.result.done = false := (hx inp (by simp)).1
    have h2 : inp.quit = false := (hx inp (by simp)).2
    have hx' : ∀ i ∈ xs, i.result.done = false ∧ i.quit = false := by
      intro i hi; exact hx i (by simp [hi])
    rw [List.cons_append, runAux_cons_cont b d s inp (xs ++ ys) h1 h2,
      ih hx', procAux_cons]
    simp [List.append_assoc]

lemma waits_start (b : Backoff) (inputs : List IterInput) :
    waits (start b inputs).1 = waits (runAux b b.initialBackoff true inputs).1 := by
  simp only [start]
  split <;> simp [waits_append, waits]

lemma notifs_start (b : Backoff) (inputs : List IterInput) :
    notifs (start b inputs).1 =
      notifs (runAux b b.initialBackoff true inputs).1 := by
  simp only [start]
  split <;> simp [notifs_append, notifs, isNotif]

lemma callCount_start (b : Backoff) (inputs : List IterInput) :
    callCount (start b inputs).1 =
      callCount (runAux b b.initialBackoff true inputs).1 := by
  simp only [start]
  split <;> simp [callCount_append, callCount]

lemma outcome_start (b : Backoff) (inputs : List IterInput) :
    (start b inputs).2 = (runAux b b.initialBackoff true inputs).2 := by
  simp only [start]

lemma failDelay_le_max (b : Backoff) (d : Int) :
    failDelay b d ≤ b.maxBackoff := by
  unfold failDelay; split <;> omega

lemma failDelay_eq_min (b : Backoff) (d : Int) :
    failDelay b d = min (wrap64 (d * 2)) b.maxBackoff := by
  simp only [failDelay, min_def]
  split <;> split <;> omega

lemma failDelayN_succ (b : Backoff) (d : Int) (n : Nat) :
    failDelayN b d (n + 1) = failDelayN b (failDelay b d) n := by
  simp [failDelayN]

lemma two_pow_62 : (2 : Int) ^ 62 = 4611686018427387904 := by norm_num

lemma two_pow_63 : (2 : Int) ^ 63 = 9223372036854775808 := by norm_num

lemma two_pow_64 : (2 : Int) ^ 64 = 18446744073709551616 := by norm_num

lemma wrap64_eq_self (x : Int) (h1 : -(2 ^ 63) ≤ x) (h2 : x < 2 ^ 63) :
    wrap64 x = x := by
  rw [wrap64]
  simp only [two_pow_63, two_pow_64] at h1 h2 ⊢
  omega

/-- Doubling cannot wrap on the region the spec intends: a non-negative
delay bounded by a `maxBackoff` below 2^62. -/
lemma double_no_wrap (b : Backoff) (d : Int) (hm : b.maxBackoff < 2 ^ 62)
    (h0 : 0 ≤ d) (hd : d ≤ b.maxBackoff) : wrap64 (d * 2) = d * 2 := by
  apply wrap64_eq_self
  · simp only [two_pow_63]
    omega
  · simp only [two_pow_62] at hm
    simp only [two_pow_63]
    omega

lemma one_le_two_pow_int (n : Nat) : (1 : Int) ≤ 2 ^ n := by
  induction n with
  | zero => norm_num
  | succ n ih => rw [pow_succ]; omega

lemma two_pow_int_nonneg (n : Nat) : (0 : Int) ≤ 2 ^ n :=
  le_trans (by norm_num) (one_le_two_pow_int n)

/-- Closed form for the delay after `n` consecutive failures on the
overflow-free region (non-negative delay, `maxBackoff < 2^62`, so the int64
doubling never wraps): the doubled value, clamped to `maxBackoff`. -/
lemma failDelayN_min (b : Backoff) (hm : b.maxBackoff < 2 ^ 62) (n : Nat) :
    ∀ d : Int, 0 ≤ d → d ≤ b.maxBackoff →
      failDelayN b d n = min (d * 2 ^ n) b.maxBackoff := by
  induction n with
  | zero => intro d _ hd; simp [failDelayN, min_eq_left hd]
  | succ n ih =>
    intro d h0 hd
    have hw : wrap64 (d * 2) = d * 2 := double_no_wrap b d hm h0 hd
    have hfd : failDelay b d = min (d * 2) b.maxBackoff := by
      rw [failDelay_eq_min, hw]
    have h0f : 0 ≤ failDelay b d := by
      rw [hfd]
      exact le_min (by omega) (by omega)
    rw [failDelayN_succ, ih (failDelay b d) h0f (failDelay_le_max b d),
      hfd, min_mul_of_nonneg _ _ (two_pow_int_nonneg n), min_assoc]
    have hpow : d * 2 * 2 ^ n = d * 2 ^ (n + 1) := by rw [pow_succ]; ring
    rw [hpow]
    have hmm : b.maxBackoff ≤ b.maxBackoff * 2 ^ n :=
      le_mul_of_one_le_right (by omega) (one_le_two_pow_int n)
    rw [min_eq_right hmm]

lemma replicate_fail_cont (e : String) (n : Nat) :
    ∀ i ∈ List.replicate n (failInput e),
      i.result.done = false ∧ i.quit = false := by
  intro i hi
  rw [List.eq_of_mem_replicate hi]
  exact ⟨rfl, rfl⟩

lemma procAux_repl_fail_delay (b : Backoff) (e : String) (n : Nat) :
    ∀ (d : Int) (s : Bool),
      (procAux b d s (List.replicate n (failInput e))).delay =
        failDelayN b d n := by
  induction n with
  | zero => intro d s; rfl
  | succ n ih =>
    intro d s
    rw [List.replicate_succ, procAux_cons, failDelayN_succ]
    show (procAux b (loopIter b d s (failInput e).result.err).delay _ _).delay = _
    simp only [failInput, loopIter_some_delay]
    exact ih (failDelay b d) _

lemma procAux_repl_fail_flag (b : Backoff) (e : String) (n : Nat) :
    ∀ d : Int,
      (procAux b d true (List.replicate n (failInput e))).flag = true := by
  induction n with
  | zero => intro d; rfl
  | succ n ih =>
    intro d
    rw [List.replicate_succ, procAux_cons]
    show (procAux b _ (loopIter b d true (failInput e).result.err).flag _).flag = _
    have hfl : (loopIter b d true (failInput e).result.err).flag = true := by
      simp [failInput, loopIter]
    rw [hfl]
    exact ih _

lemma procAux_repl_fail_waits (b : Backoff) (e : String) (n : Nat) :
    ∀ (d : Int) (s : Bool),
      waits (procAux b d s (List.replicate n (failInput e))).acts =
        (List.range n).map (fun k => failDelayN b d (k + 1)) := by
  induction n with
  | zero => intro d s; rfl
  | succ n ih =>
    intro d s
    rw [List.replicate_succ, procAux_cons]
    show waits (Action.call :: (loopIter b d s (failInput e).result.err).acts ++
      Action.wait (loopIter b d s (failInput e).result.err).delay :: _) = _
    rw [show (Action.call :: (loopIter b d s (failInput e).result.err).acts ++
      Action.wait (loopIter b d s (failInput e).result.err).delay ::
        (procAux b (loopIter b d s (failInput e).result.err).delay
          (loopIter b d s (failInput e).result.err).flag
            (List.replicate n (failInput e))).acts) =
      (Action.call :: (loopIter b d s (failInput e).result.err).acts) ++
        (Action.wait (loopIter b d s (failInput e).result.err).delay ::
          (procAux b (loopIter b d s (failInput e).result.err).delay
            (loopIter b d s (failInput e).result.err).flag
              (List.replicate n (failInput e))).acts) by simp,
      waits_append]
    have hw : waits (Action.call ::
        (loopIter b d s (failInput e).result.err).acts) = [] := by
      simp [waits, waits_loopIter_acts]
    rw [hw]
    have herr : (failInput e).result.err = some e := rfl
    have hfl : (loopIter b d s (some e)).flag = true := by simp [loopIter]
    rw [List.nil_append, waits, herr, loopIter_some_delay, hfl,
      ih (failDelay b d) true,
      List.range_succ_eq_map, List.map_cons, List.map_map]
    apply List.cons_eq_cons.mpr
    refine ⟨by simp [failDelayN_succ, failDelayN], ?_⟩
    apply List.map_congr_left
    intro k _
    simp [Function.comp, failDelayN_succ]

lemma runAux_cont_append_fst (b : Backoff) (xs : List IterInput)
    (hx : ∀ i ∈ xs, i.result.done = false ∧ i.quit = false)
    (d : Int) (s : Bool) (ys : List IterInput) :
    (runAux b d s (xs ++ ys)).1 =
      (procAux b d s xs).acts ++
        (runAux b (procAux b d s xs).delay (procAux b d s xs).flag ys).1 := by
  rw [runAux_cont_append b xs hx d s ys]

lemma runAux_cont_append_snd (b : Backoff) (xs : List IterInput)
    (hx : ∀ i ∈ xs, i.result.done = false ∧ i.quit = false)
    (d : Int) (s : Bool) (ys : List IterInput) :
    (runAux b d s (xs ++ ys)).2 =
      (runAux b (procAux b d s xs).delay (procAux b d s xs).flag ys).2 := by
  rw [runAux_cont_append b xs hx d s ys]

/-- C1 as stated is false on int64: at `initialBackoff = maxBackoff = 2^62`
(representable durations with `initialBackoff ≤ maxBackoff`), the first
failure doubles `2^62` to `2^63`, which wraps to `-2^63`; that escapes the
clamp and is used as the wait, instead of
`min (initialBackoff * 2^1, maxBackoff) = 2^62`. -/
theorem C1_cex :
    (waits (start ⟨"m", 2 ^ 62, 2 ^ 62⟩ [failInput "x"]).1)[0]? =
      some (-(2 ^ 63)) ∧
    (-(2 ^ 63) : Int) ≠ min ((2 : Int) ^ 62 * 2 ^ 1) (2 ^ 62) := by decide

/-- C1 amended: for every `N ≥ 1` and any
`0 ≤ initialBackoff ≤ maxBackoff < 2^62` (so that the int64 doubling can
never overflow), if the work function returns `(false, err)` with a non-nil
error on each of the first `N` iterations, the delay used for the wait
after the `N`-th iteration is `min (initialBackoff * 2 ^ N) maxBackoff`. -/
theorem C1_nth_failure_wait (b : Backoff) (e : String) (N : Nat)
    (rest : List IterInput) (hN : 1 ≤ N) (h0 : 0 ≤ b.initialBackoff)
    (h : b.initialBackoff ≤ b.maxBackoff) (hm : b.maxBackoff < 2 ^ 62) :
    (waits (start b (List.replicate N (failInput e) ++ rest)).1)[N - 1]? =
      some (min (b.initialBackoff * 2 ^ N) b.maxBackoff) := by
  rw [waits_start,
    runAux_cont_append_fst b (List.replicate N (failInput e))
      (replicate_fail_cont e N) b.initialBackoff true rest,
    waits_append, procAux_repl_fail_waits]
  have hlen : N - 1 <
      ((List.range N).map
        (fun k => failDelayN b b.initialBackoff (k + 1))).length := by
    simp
    omega
  rw [List.getElem?_append_left hlen, List.getElem?_map]
  have hr : (List.range N)[N - 1]? = some (N - 1) := by
    rw [List.getElem?_range (by omega)]
  rw [hr]
  have hsub : N - 1 + 1 = N := by omega
  simp only [Option.map_some']
  rw [hsub, failDelayN_min b hm N b.initialBackoff h0 h]

/-- C7: with `initialBackoff = 1` and `maxBackoff = 4`, and the work
function failing on calls 1-3 and completing on call 4, the waits use
delays 2, 4, 4 (the last clamped) and the loop exits right after the 4th
call with no further wait. -/
theorem C7_scenario :
    start ⟨"m", 1, 4⟩
        [failInput "e", failInput "e", failInput "e", doneInput] =
      ([Action.call, Action.warn "m" 2 "e", Action.wait 2,
        Action.call, Action.warn "m" 4 "e", Action.wait 4,
        Action.call, Action.wait 4,
        Action.call, Action.closeDone], Outcome.completed) ∧
    waits (start ⟨"m", 1, 4⟩
        [failInput "e", failInput "e", failInput "e", doneInput]).1 =
      [2, 4, 4] ∧
    callCount (start ⟨"m", 1, 4⟩
        [failInput "e", failInput "e", failInput "e", doneInput]).1 = 4 := by
  decide

/-- C4: on a non-completing iteration with a non-nil error the delay is
doubled (`backoff *= 2` on int64, i.e. `wrap64 (d * 2)`); if the doubled
value exceeds `maxBackoff` it is clamped and the log flag is cleared, so
nothing is logged; otherwise the flag is set and exactly one warning
carrying the label, the updated delay and the error is logged.  When the
doubled value equals `maxBackoff` exactly, the warning is still logged. -/
theorem C4_error_branch (b : Backoff) (d : Int) (s : Bool) (e : String) :
    updateDelay b d s (some e) =
      (if wrap64 (d * 2) > b.maxBackoff then (b.maxBackoff, false)
       else (wrap64 (d * 2), true)) ∧
    (loopIter b d s (some e)).acts =
      (if wrap64 (d * 2) > b.maxBackoff then []
       else [Action.warn b.msg (wrap64 (d * 2)) e]) ∧
    (wrap64 (d * 2) = b.maxBackoff →
      (loopIter b d s (some e)).acts =
        [Action.warn b.msg b.maxBackoff e]) := by
  refine ⟨rfl, ?_, ?_⟩
  · by_cases hc : wrap64 (d * 2) > b.maxBackoff <;> simp [loopIter_some, hc]
  · intro hEq
    have hc : ¬ wrap64 (d * 2) > b.maxBackoff := by omega
    simp [loopIter_some, hc, hEq]

/-- Witness for C4 at `maxBackoff = 4`, delay 2: doubling gives exactly
`maxBackoff` and the warning is still logged. -/
theorem C4_error_branch_witness :
    (loopIter ⟨"m", 1, 4⟩ 2 true (some "x")).acts =
      [Action.warn "m" 4 "x"] :=
  (C4_error_branch ⟨"m", 1, 4⟩ 2 true "x").2.2 (by decide)

/-- C5: on a non-completing iteration with a nil error the delay is reset
to `initialBackoff`, regardless of its current value. -/
theorem C5_reset (b : Backoff) (d : Int) (s : Bool) :
    (loopIter b d s none).delay = b.initialBackoff ∧
    updateDelay b d s none = (b.initialBackoff, s) :=
  ⟨by simp [loopIter_none], rfl⟩

/-- Witness for C1 at `initialBackoff = 1`, `maxBackoff = 4`, two
failures. -/
theorem C1_nth_failure_wait_witness :
    (waits (start ⟨"m", 1, 4⟩
        (List.replicate 2 (failInput "x") ++ [])).1)[2 - 1]? =
      some (min ((1 : Int) * 2 ^ 2) 4) :=
  C1_nth_failure_wait ⟨"m", 1, 4⟩ "x" 2 [] (by decide) (by decide)
    (by decide) (by decide)

lemma notifs_cons_call (tr : List Action) :
    notifs (Action.call :: tr) = notifs tr := by simp [notifs, isNotif]

lemma notifs_cons_wait (x : Int) (tr : List Action) :
    notifs (Action.wait x :: tr) = notifs tr := by simp [notifs, isNotif]

lemma notifs_cons_warn (m : String) (x : Int) (e : String)
    (tr : List Action) :
    notifs (Action.warn m x e :: tr) = Action.warn m x e :: notifs tr := by
  simp [notifs, isNotif]

lemma notifs_cons_info (m : String) (tr : List Action) :
    notifs (Action.info m :: tr) = Action.info m :: notifs tr := by
  simp [notifs, isNotif]

lemma notifs_cons_quitObserved (tr : List Action) :
    notifs (Action.quitObserved :: tr) = notifs tr := by
  simp [notifs, isNotif]

lemma waits_cons_call (tr : List Action) :
    waits (Action.call :: tr) = waits tr := rfl

lemma waits_cons_wait (x : Int) (tr : List Action) :
    waits (Action.wait x :: tr) = x :: waits tr := rfl

lemma notifs_loopIter_none_false (b : Backoff) (d : Int) :
    notifs (loopIter b d false none).acts = [] := by
  simp [loopIter_none, notifs]

/-- C3 as stated is false: with `initialBackoff = 1` and `maxBackoff = 1`,
a first iteration returning `(false, some error)` doubles the delay to 2,
which exceeds `maxBackoff`, so the clamp clears the log flag and no log
line at all is emitted on the first iteration. -/
theorem C3_cex :
    notifs (start ⟨"m", 1, 1⟩ [failInput "x"]).1 = [] := by decide

/-- C3 amended: the first loop iteration (which runs with
`backoff = initialBackoff` and `shouldLog = true`, as `start` seeds them)
emits exactly one log line when the error is nil, or when the int64 double
of `initialBackoff` does not exceed `maxBackoff`; but when the first result
is an error and `wrap64 (initialBackoff * 2) > maxBackoff`, the clamp
suppresses the log line and the first iteration emits nothing. -/
theorem C3_first_iter (b : Backoff) (e : Option String) :
    (loopIter b b.initialBackoff true e).acts =
      match e with
      | none => [Action.info b.msg]
      | some err =>
          if wrap64 (b.initialBackoff * 2) > b.maxBackoff then []
          else [Action.warn b.msg (wrap64 (b.initialBackoff * 2)) err] := by
  cases e with
  | none => simp [loopIter_none]
  | some err =>
    by_cases hc : wrap64 (b.initialBackoff * 2) > b.maxBackoff <;>
      simp [loopIter_some, hc]

/-- C8: an iteration on which the work function returns `done = true`
exits the loop at once: no delay update, no log line, no wait.  In
particular a first call returning `done = true` makes `Start` return
immediately, its trace being just the call and the deferred close of the
`done` channel. -/
theorem C8_complete_exits (b : Backoff) (r : WorkResult) (q : Bool)
    (rest : List IterInput) (d : Int) (s : Bool) (h : r.done = true) :
    start b (⟨r, q⟩ :: rest) =
      ([Action.call, Action.closeDone], Outcome.completed) ∧
    runAux b d s (⟨r, q⟩ :: rest) = ([Action.call], Outcome.completed) := by
  have h1 := runAux_cons_done b b.initialBackoff true ⟨r, q⟩ rest h
  have h2 := runAux_cons_done b d s ⟨r, q⟩ rest h
  refine ⟨?_, h2⟩
  simp [start, h1]

/-- Witness for C8: a work function completing on its first call. -/
theorem C8_complete_exits_witness :
    start ⟨"m", 1, 4⟩ [⟨⟨true, none⟩, false⟩] =
      ([Action.call, Action.closeDone], Outcome.completed) ∧
    runAux ⟨"m", 1, 4⟩ 7 true [⟨⟨true, none⟩, false⟩] =
      ([Action.call], Outcome.completed) :=
  C8_complete_exits ⟨"m", 1, 4⟩ ⟨true, none⟩ false [] 7 true rfl

lemma loopIter_zero_fail (b : Backoff) (s : Bool) (e : String)
    (hmax : 0 ≤ b.maxBackoff) :
    loopIter b 0 s (some e) = ⟨0, true, [Action.warn b.msg 0 e]⟩ := by
  have h0 : wrap64 (0 : Int) = 0 := by
    simp only [wrap64, two_pow_63, two_pow_64]
    omega
  have hc : ¬ (b.maxBackoff < (0 : Int)) := by omega
  simp [loopIter_some, h0, hc]

lemma runAux_zero_fail (b : Backoff) (e : String) (hmax : 0 ≤ b.maxBackoff)
    (n : Nat) :
    ∀ s : Bool,
      notifs (runAux b 0 s (List.replicate n (failInput e))).1 =
        List.replicate n (Action.warn b.msg 0 e) ∧
      waits (runAux b 0 s (List.replicate n (failInput e))).1 =
        List.replicate n (0 : Int) := by
  induction n with
  | zero => intro s; exact ⟨rfl, rfl⟩
  | succ n ih =>
    intro s
    obtain ⟨ihn, ihw⟩ := ih true
    rw [List.replicate_succ,
      runAux_cons_cont b 0 s (failInput e) _ rfl rfl]
    have herr : (failInput e).result.err = some e := rfl
    rw [herr, loopIter_zero_fail b s e hmax]
    constructor
    · simp [notifs_cons_call, notifs_cons_warn, notifs_cons_wait, ihn,
        List.replicate_succ]
    · simp [waits, ihw, List.replicate_succ]

/-- C10: with `initialBackoff = 0` and a non-negative `maxBackoff`,
doubling the zero delay yields zero, which never exceeds `maxBackoff`, so
suppression never kicks in: every consecutive failing iteration logs a
warning with delay 0 and the delay stays 0 forever. -/
theorem C10_zero_delay (b : Backoff) (e : String) (n : Nat) (s : Bool)
    (h0 : b.initialBackoff = 0) (hmax : 0 ≤ b.maxBackoff) :
    loopIter b 0 s (some e) = ⟨0, true, [Action.warn b.msg 0 e]⟩ ∧
    notifs (start b (List.replicate n (failInput e))).1 =
      List.replicate n (Action.warn b.msg 0 e) ∧
    waits (start b (List.replicate n (failInput e))).1 =
      List.replicate n (0 : Int) := by
  refine ⟨loopIter_zero_fail b s e hmax, ?_, ?_⟩
  · rw [notifs_start, h0]
    exact (runAux_zero_fail b e hmax n true).1
  · rw [waits_start, h0]
    exact (runAux_zero_fail b e hmax n true).2

/-- Witness for C10 at `maxBackoff = 5`, two failures. -/
theorem C10_zero_delay_witness :
    loopIter ⟨"m", 0, 5⟩ 0 true (some "x") =
      ⟨0, true, [Action.warn "m" 0 "x"]⟩ ∧
    notifs (start ⟨"m", 0, 5⟩ (List.replicate 2 (failInput "x"))).1 =
      List.replicate 2 (Action.warn "m" 0 "x") ∧
    waits (start ⟨"m", 0, 5⟩ (List.replicate 2 (failInput "x"))).1 =
      List.replicate 2 (0 : Int) :=
  C10_zero_delay ⟨"m", 0, 5⟩ "x" 2 true rfl (by decide)

lemma loopIter_max_fail (b : Backoff) (s : Bool) (e : String)
    (h2 : b.maxBackoff < wrap64 (b.maxBackoff * 2)) :
    loopIter b b.maxBackoff s (some e) = ⟨b.maxBackoff, true, []⟩ := by
  have hc : wrap64 (b.maxBackoff * 2) > b.maxBackoff := h2
  simp [loopIter_some, hc]

lemma runAux_max_fails (b : Backoff) (e : String)
    (hmax : b.maxBackoff < wrap64 (b.maxBackoff * 2)) (n : Nat) :
    ∀ ys : List IterInput,
      notifs (runAux b b.maxBackoff true
          (List.replicate n (failInput e) ++ ys)).1 =
        notifs (runAux b b.maxBackoff true ys).1 := by
  induction n with
  | zero => intro ys; rw [List.replicate_zero, List.nil_append]
  | succ n ih =>
    intro ys
    rw [List.replicate_succ, List.cons_append,
      runAux_cons_cont b b.maxBackoff true (failInput e) _ rfl rfl]
    have herr : (failInput e).result.err = some e := rfl
    rw [herr, loopIter_max_fail b true e hmax]
    simp [notifs_cons_call, notifs_cons_wait, ih ys]

/-- C2 as stated is false at the completion case: with
`initialBackoff = 1`, `maxBackoff = 2`, failures on calls 1 and 2 and
completion on call 3, the second failure clamps and is suppressed, and the
completion exits the loop before the logging step, so no "recovered" log
line is ever emitted: the run's only log line is the warning of
iteration 1. -/
theorem C2_cex :
    start ⟨"m", 1, 2⟩ [failInput "x", failInput "x", doneInput] =
      ([Action.call, Action.warn "m" 2 "x", Action.wait 2,
        Action.call, Action.wait 2,
        Action.call, Action.closeDone], Outcome.completed) ∧
    notifs (start ⟨"m", 1, 2⟩
        [failInput "x", failInput "x", doneInput]).1 =
      [Action.warn "m" 2 "x"] := by decide

/-- C2 amended: once a failure clamps the delay at `maxBackoff` — a
non-negative delay `d ≤ maxBackoff` whose int64 double exceeds
`maxBackoff`, with `maxBackoff < 2^62` so that doubling the clamped value
cannot wrap either — that iteration and every further consecutive failing
iteration emit no log line; the next iteration returning `(false, nil)`
emits exactly one info log line; but an iteration returning `done = true`
exits the loop immediately with no log line at all. -/
theorem C2_suppression_recovery (b : Backoff) (e e2 : String) (d : Int)
    (s s2 : Bool) (n : Nat) (rest : List IterInput)
    (hd0 : 0 ≤ d) (hd : d ≤ b.maxBackoff) (hm : b.maxBackoff < 2 ^ 62)
    (hclamp : b.maxBackoff < wrap64 (d * 2)) :
    loopIter b d s (some e) = ⟨b.maxBackoff, true, []⟩ ∧
    notifs (runAux b b.maxBackoff true
        (List.replicate n (failInput e2) ++ okInput :: rest)).1 =
      Action.info b.msg ::
        notifs (runAux b b.initialBackoff false rest).1 ∧
    runAux b b.maxBackoff s2 (doneInput :: rest) =
      ([Action.call], Outcome.completed) := by
  have hw : wrap64 (d * 2) = d * 2 := double_no_wrap b d hm hd0 hd
  have hmaxpos : 0 < b.maxBackoff := by omega
  have hwm : wrap64 (b.maxBackoff * 2) = b.maxBackoff * 2 :=
    double_no_wrap b b.maxBackoff hm (by omega) (le_refl _)
  have hmax2 : b.maxBackoff < wrap64 (b.maxBackoff * 2) := by omega
  refine ⟨?_, ?_, runAux_cons_done b b.maxBackoff s2 doneInput rest rfl⟩
  · have hc : wrap64 (d * 2) > b.maxBackoff := hclamp
    simp [loopIter_some, hc]
  · rw [runAux_max_fails b e2 hmax2 n (okInput :: rest),
      runAux_cons_cont b b.maxBackoff true okInput rest rfl rfl]
    have herr : (okInput : IterInput).result.err = none := rfl
    rw [herr, loopIter_none]
    simp [notifs_cons_call, notifs_cons_info, notifs_cons_wait]

/-- Witness for C2 at `initialBackoff = 1`, `maxBackoff = 2`, clamping
delay 2, one further suppressed failure, then a nil-error result. -/
theorem C2_suppression_recovery_witness :
    loopIter ⟨"m", 1, 2⟩ 2 true (some "x") = ⟨2, true, []⟩ ∧
    notifs (runAux ⟨"m", 1, 2⟩ 2 true
        (List.replicate 1 (failInput "y") ++ okInput :: [])).1 =
      Action.info "m" :: notifs (runAux ⟨"m", 1, 2⟩ 1 false []).1 ∧
    runAux ⟨"m", 1, 2⟩ 2 true (doneInput :: []) =
      ([Action.call], Outcome.completed) :=
  C2_suppression_recovery ⟨"m", 1, 2⟩ "x" "y" 2 true true 1 []
    (by decide) (by decide) (by decide) (by decide)

/-- C6 as stated is false twice over, even with
`initialDelay ≤ maxDelay`.  With `initialBackoff = -1 ≤ maxBackoff = 4`, a
single failure doubles the delay to `-2`, which the wait then uses, and
`-2` lies below `initialBackoff`, outside the claimed range.  And with
`initialBackoff = maxBackoff = 2^62` the int64 double wraps to `-2^63`,
escapes the clamp and leaves the claimed range downward. -/
theorem C6_cex :
    (waits (start ⟨"m", -1, 4⟩ [failInput "x"]).1 = [-2] ∧
     ¬ (∀ x ∈ waits (start ⟨"m", -1, 4⟩ [failInput "x"]).1,
         (-1 : Int) ≤ x ∧ x ≤ 4)) ∧
    (waits (start ⟨"m", 2 ^ 62, 2 ^ 62⟩ [failInput "x"]).1 =
       [-(2 ^ 63)] ∧
     ¬ (∀ x ∈ waits (start ⟨"m", 2 ^ 62, 2 ^ 62⟩ [failInput "x"]).1,
         (2 : Int) ^ 62 ≤ x ∧ x ≤ 2 ^ 62)) := by decide

lemma loopIter_delay_bounds (b : Backoff) (d : Int) (s : Bool)
    (err : Option String) (h0 : 0 ≤ b.initialBackoff)
    (h : b.initialBackoff ≤ b.maxBackoff) (hm : b.maxBackoff < 2 ^ 62)
    (hd1 : b.initialBackoff ≤ d) (hd2 : d ≤ b.maxBackoff) :
    b.initialBackoff ≤ (loopIter b d s err).delay ∧
      (loopIter b d s err).delay ≤ b.maxBackoff := by
  cases err with
  | none => simp [loopIter_none]; omega
  | some e =>
    have hw : wrap64 (d * 2) = d * 2 :=
      double_no_wrap b d hm (by omega) hd2
    rw [loopIter_some]
    split <;> simp <;> omega

lemma runAux_waits_bounds (b : Backoff) (h0 : 0 ≤ b.initialBackoff)
    (h : b.initialBackoff ≤ b.maxBackoff)
    (hm : b.maxBackoff < 2 ^ 62) :
    ∀ (inputs : List IterInput) (d : Int) (s : Bool),
      b.initialBackoff ≤ d → d ≤ b.maxBackoff →
      ∀ x ∈ waits (runAux b d s inputs).1,
        b.initialBackoff ≤ x ∧ x ≤ b.maxBackoff := by
  intro inputs
  induction inputs with
  | nil => intro d s _ _ x hx; simp [runAux, waits] at hx
  | cons inp rest ih =>
    intro d s hd1 hd2 x hx
    cases hdone : inp.result.done with
    | true =>
      rw [runAux_cons_done b d s inp rest hdone] at hx
      simp [waits] at hx
    | false =>
      cases hq : inp.quit with
      | true =>
        rw [runAux_cons_quit b d s inp rest hdone hq] at hx
        replace hx : x ∈ waits (Action.call ::
          (loopIter b d s inp.result.err).acts ++
            [Action.quitObserved]) := hx
        rw [waits_append, waits_cons_call, waits_loopIter_acts] at hx
        simp [waits] at hx
      | false =>
        rw [runAux_cons_cont b d s inp rest hdone hq] at hx
        obtain ⟨hb1, hb2⟩ :=
          loopIter_delay_bounds b d s inp.result.err h0 h hm hd1 hd2
        replace hx : x ∈ waits (Action.call ::
          (loopIter b d s inp.result.err).acts ++
            Action.wait (loopIter b d s inp.result.err).delay ::
              (runAux b (loopIter b d s inp.result.err).delay
                (loopIter b d s inp.result.err).flag rest).1) := hx
        rw [waits_append, waits_cons_call, waits_loopIter_acts,
          waits_cons_wait, List.nil_append] at hx
        rcases List.mem_cons.mp hx with hx | hx
        · exact hx ▸ ⟨hb1, hb2⟩
        · exact ih (loopIter b d s inp.result.err).delay
            (loopIter b d s inp.result.err).flag hb1 hb2 x hx

/-- C6 amended: under the preconditions
`0 ≤ initialBackoff ≤ maxBackoff < 2^62` (non-negative durations whose
doubling cannot overflow int64), the delay stays in the range
`[initialBackoff, maxBackoff]`: the loop starts it at `initialBackoff`,
one iteration keeps it in range (both the double-then-clamp branch and the
reset branch), and hence every completed wait of a run uses a delay in
that range.  (The as-written claim, with only `initialDelay ≤ maxDelay`,
is refuted by `C6_cex` on both counts.) -/
theorem C6_range (b : Backoff) (inputs : List IterInput) (d : Int)
    (s : Bool) (err : Option String) (h0 : 0 ≤ b.initialBackoff)
    (h : b.initialBackoff ≤ b.maxBackoff) (hm : b.maxBackoff < 2 ^ 62)
    (hd1 : b.initialBackoff ≤ d) (hd2 : d ≤ b.maxBackoff) :
    (b.initialBackoff ≤ (loopIter b d s err).delay ∧
      (loopIter b d s err).delay ≤ b.maxBackoff) ∧
    ∀ x ∈ waits (start b inputs).1,
      b.initialBackoff ≤ x ∧ x ≤ b.maxBackoff := by
  refine ⟨loopIter_delay_bounds b d s err h0 h hm hd1 hd2, ?_⟩
  rw [waits_start]
  exact runAux_waits_bounds b h0 h hm inputs b.initialBackoff true
    (le_refl _) h

/-- Witness for C6 at `initialBackoff = 1`, `maxBackoff = 4`. -/
theorem C6_range_witness :
    ((1 : Int) ≤ (loopIter ⟨"m", 1, 4⟩ 1 true (some "y")).delay ∧
      (loopIter ⟨"m", 1, 4⟩ 1 true (some "y")).delay ≤ 4) ∧
    ∀ x ∈ waits (start ⟨"m", 1, 4⟩ [failInput "x"]).1,
      (1 : Int) ≤ x ∧ x ≤ 4 :=
  C6_range ⟨"m", 1, 4⟩ [failInput "x"] 1 true (some "y")
    (by decide) (by decide) (by decide) (by decide) (by decide)

lemma callCount_procAux (b : Backoff) :
    ∀ (xs : List IterInput) (d : Int) (s : Bool),
      callCount (procAux b d s xs).acts = xs.length := by
  intro xs
  induction xs with
  | nil => intro d s; rfl
  | cons inp xs ih =>
    intro d s
    rw [procAux_cons]
    simp [callCount, callCount_append, callCount_loopIter_acts, ih]

/-- C9: if the quit channel fires during an iteration's wait (after any
run of ordinary iterations), the loop exits at once: the work function is
called exactly once per iteration up to and including that one and never
again, nothing follows the quit observation but the deferred close of the
`done` channel (so no further log line), and the `done` close is the last
action of the run. -/
theorem C9_quit_during_wait (b : Backoff) (r : WorkResult)
    (xs rest : List IterInput)
    (hx : ∀ i ∈ xs, i.result.done = false ∧ i.quit = false)
    (hr : r.done = false) :
    callCount (start b (xs ++ ⟨r, true⟩ :: rest)).1 = xs.length + 1 ∧
    (start b (xs ++ ⟨r, true⟩ :: rest)).2 = Outcome.quitExit ∧
    ∃ pre, (start b (xs ++ ⟨r, true⟩ :: rest)).1 =
      pre ++ [Action.quitObserved, Action.closeDone] := by
  have hquit := runAux_cons_quit b
    (procAux b b.initialBackoff true xs).delay
    (procAux b b.initialBackoff true xs).flag ⟨r, true⟩ rest hr rfl
  have hsnd := runAux_cont_append_snd b xs hx b.initialBackoff true
    (⟨r, true⟩ :: rest)
  have hfst := runAux_cont_append_fst b xs hx b.initialBackoff true
    (⟨r, true⟩ :: rest)
  have houtcome : (runAux b b.initialBackoff true
      (xs ++ ⟨r, true⟩ :: rest)).2 = Outcome.quitExit := by
    rw [hsnd, hquit]
  have hstart : (start b (xs ++ ⟨r, true⟩ :: rest)).1 =
      (runAux b b.initialBackoff true (xs ++ ⟨r, true⟩ :: rest)).1 ++
        [Action.closeDone] := by
    simp [start, houtcome]
  refine ⟨?_, ?_, ?_⟩
  · rw [hstart, callCount_append, hfst, callCount_append, hquit]
    simp [callCount, callCount_loopIter_acts, callCount_append,
      callCount_procAux]
  · rw [outcome_start]
    exact houtcome
  · refine ⟨(procAux b b.initialBackoff true xs).acts ++
      Action.call :: (loopIter b (procAux b b.initialBackoff true xs).delay
        (procAux b b.initialBackoff true xs).flag
        (⟨r, true⟩ : IterInput).result.err).acts, ?_⟩
    rw [hstart, hfst, hquit]
    simp [List.append_assoc]

/-- Witness for C9: one failing iteration, then quit fires during the
second iteration's wait. -/
theorem C9_quit_during_wait_witness :
    callCount (start ⟨"m", 1, 4⟩
        ([failInput "x"] ++ ⟨⟨false, some "x"⟩, true⟩ :: [])).1 =
      [failInput "x"].length + 1 ∧
    (start ⟨"m", 1, 4⟩
        ([failInput "x"] ++ ⟨⟨false, some "x"⟩, true⟩ :: [])).2 =
      Outcome.quitExit ∧
    ∃ pre, (start ⟨"m", 1, 4⟩
        ([failInput "x"] ++ ⟨⟨false, some "x"⟩, true⟩ :: [])).1 =
      pre ++ [Action.quitObserved, Action.closeDone] :=
  C9_quit_during_wait ⟨"m", 1, 4⟩ ⟨false, some "x"⟩ [failInput "x"] []
    (by decide) rfl

end BackoffProg
